import Mathlib

/-!
# HW07 : `AMyPawn` look / move controller

A shallow embedding of `Source/HW07/Private/MyPawn.cpp`.

* Scalars (`float` / `double` in the source) are rationals. The one arithmetic
  operation of the source, the floating-point addition `NewRotation.Pitch += Y` of
  line 115, is the exact sum followed by the rounding `Engine.Round` of the scalar
  type. Comparisons (the clamp) are exact. Infinities and NaN are not modelled.
* `roundNearestEven prec` is the rounding of binary floating point with `prec`
  significant bits (53 for `double`, 24 for `float`), round to nearest, ties to even.
* The Unreal Engine calls that the pawn makes (`AddActorLocalRotation`,
  `GetActorForwardVector`, `GetActorRightVector`) are not part of the repository.
  They are fields of the `Engine` record, left uninterpreted; whatever a
  theorem needs to know about them is an explicit, named law.
* `AddMovementInput` is a request handed to the movement component: `Move`
  returns the list of requests it makes, oldest first.
* `GetRelativeRotation` / `SetRelativeRotation` read and store the spring arm's
  relative rotator.
-/

namespace HW07

/-! ## Engine value types -/

/-- Rotator of the engine: `FRotator(Pitch, Yaw, Roll)`, in degrees. -/
structure FRotator where
  Pitch : ℚ
  Yaw : ℚ
  Roll : ℚ
  deriving DecidableEq, Repr

/-- Three-dimensional vector of the engine. -/
structure FVector where
  X : ℚ
  Y : ℚ
  Z : ℚ
  deriving DecidableEq, Repr

/-- Two-dimensional vector carried by an input action value. -/
structure FVector2D where
  X : ℚ
  Y : ℚ
  deriving DecidableEq, Repr

/-- Dot product of two vectors (`FVector::DotProduct`). -/
def FVector.Dot (a b : FVector) : ℚ :=
  a.X * b.X + a.Y * b.Y + a.Z * b.Z

/-- The generic minimum of the engine: `FMath::Min(A, B) = (A < B) ? A : B`. -/
def FMath.Min (A B : ℚ) : ℚ :=
  if A < B then A else B

/-- The generic maximum of the engine: `FMath::Max(A, B) = (B < A) ? A : B`. -/
def FMath.Max (A B : ℚ) : ℚ :=
  if B < A then A else B

/-- The clamp of the engine:
`FMath::Clamp(X, MinValue, MaxValue) = Max(Min(X, MaxValue), MinValue)`. -/
def FMath.Clamp (X MinValue MaxValue : ℚ) : ℚ :=
  FMath.Max (FMath.Min X MaxValue) MinValue

/-! ## `PawnCameraConstants` (MyPawn.cpp, lines 14-18) -/

/-- Highest pitch the camera may look up to. -/
def PawnCameraConstants.MaxCameraPitchUp : ℚ := 80

/-- Lowest pitch the camera may look down to. -/
def PawnCameraConstants.MaxCameraPitchDown : ℚ := -80

/-! ## Binary floating-point rounding -/

/-- Nearest integer to `q`, a tie going to the even neighbour. -/
def roundHalfEven (q : ℚ) : ℤ :=
  let f : ℤ := ⌊q⌋
  if q - f < 1 / 2 then f
  else if 1 / 2 < q - f then f + 1
  else if f % 2 = 0 then f else f + 1

/-- Rounding of a positive `x` to `prec` significant bits: with `2 ^ e ≤ x < 2 ^ (e + 1)`,
the nearest multiple of `2 ^ (e - (prec - 1))`, ties to even. -/
def roundPos (prec : ℕ) (x : ℚ) : ℚ :=
  let e : ℤ := Int.log 2 x
  let ulp : ℚ := (2 : ℚ) ^ (e - ((prec : ℤ) - 1))
  (roundHalfEven (x / ulp) : ℚ) * ulp

/-- Round to nearest, ties to even, in binary floating point of `prec` significant bits
(exponent range unbounded: no overflow, no subnormal numbers). -/
def roundNearestEven (prec : ℕ) (x : ℚ) : ℚ :=
  if 0 < x then roundPos prec x else if x < 0 then -roundPos prec (-x) else 0

/-! ## The engine, as far as the pawn uses it -/

/-- The platform services used by `AMyPawn`, uninterpreted.

* `AddLocalRotation r d` : the actor rotation after `AddActorLocalRotation(d)` on an
  actor whose rotation is `r`;
* `GetForwardVector r`, `GetRightVector r` : what `GetActorForwardVector()` and
  `GetActorRightVector()` return for an actor whose rotation is `r`;
* `Round` : the rounding of the scalar type; the floating-point sum of `a` and `b` is
  `Round (a + b)`. -/
structure Engine where
  AddLocalRotation : FRotator → FRotator → FRotator
  GetForwardVector : FRotator → FVector
  GetRightVector : FRotator → FVector
  Round : ℚ → ℚ

/-- Law: adding the zero rotator leaves the actor rotation as it is. -/
def Engine.ZeroDeltaLaw (E : Engine) : Prop :=
  ∀ r : FRotator, E.AddLocalRotation r ⟨0, 0, 0⟩ = r

/-- Law: on an actor with zero pitch and roll, a local yaw delta adds to the yaw,
up to whole turns, and keeps pitch and roll at zero. -/
def Engine.YawLaw (E : Engine) : Prop :=
  ∀ y x : ℚ, ∃ k : ℤ, E.AddLocalRotation ⟨0, y, 0⟩ ⟨0, x, 0⟩ = ⟨0, y + x + 360 * k, 0⟩

/-- Law: the forward and right axes of an actor are perpendicular. -/
def Engine.AxesLaw (E : Engine) : Prop :=
  ∀ r : FRotator, FVector.Dot (E.GetRightVector r) (E.GetForwardVector r) = 0

/-- Law of the scalar rounding: it is monotone, it leaves its own results as they are,
and it is exact on the integers of magnitude below `2 ^ 24`. -/
def Engine.RoundLaw (E : Engine) : Prop :=
  (∀ x y : ℚ, x ≤ y → E.Round x ≤ E.Round y) ∧
  (∀ x : ℚ, E.Round (E.Round x) = E.Round x) ∧
  (∀ n : ℤ, |n| < 16777216 → E.Round n = n)

/-! ## The pawn -/

/-- The part of `USpringArmComponent` the pawn touches. -/
structure USpringArmComponent where
  RelativeRotation : FRotator
  TargetArmLength : ℚ
  deriving DecidableEq, Repr

/-- State of an `AMyPawn`: the rotation of the actor (its root capsule) and the
`SpringArm` pointer, `none` when it is null. -/
structure AMyPawn where
  ActorRotation : FRotator
  SpringArm : Option USpringArmComponent
  deriving DecidableEq, Repr

/-- One call `AddMovementInput(WorldDirection, ScaleValue)`. -/
structure MovementInput where
  WorldDirection : FVector
  ScaleValue : ℚ
  deriving DecidableEq, Repr

/-- Pawn as the constructor `AMyPawn::AMyPawn()` leaves it: spring arm created with
`TargetArmLength = 300` and default (zero) rotations. -/
def AMyPawn.construct : AMyPawn :=
  { ActorRotation := ⟨0, 0, 0⟩
    SpringArm := some { RelativeRotation := ⟨0, 0, 0⟩, TargetArmLength := 300 } }

/-- Embedding of `AMyPawn::Move` (MyPawn.cpp, lines 89-98): the state after the call
and the movement requests made, in call order. -/
def AMyPawn.Move (E : Engine) (self : AMyPawn) (Value : FVector2D) :
    AMyPawn × List MovementInput :=
  let MovementVector := Value
  (self,
    [ ⟨E.GetForwardVector self.ActorRotation, MovementVector.Y⟩,
      ⟨E.GetRightVector self.ActorRotation, MovementVector.X⟩ ])

/-- Embedding of `AMyPawn::Look` (MyPawn.cpp, lines 100-123). -/
def AMyPawn.Look (E : Engine) (self : AMyPawn) (Value : FVector2D) : AMyPawn :=
  let LookAxisVector := Value
  let self1 : AMyPawn :=
    { self with
      ActorRotation := E.AddLocalRotation self.ActorRotation ⟨0, LookAxisVector.X, 0⟩ }
  match self1.SpringArm with
  | none => self1
  | some arm =>
    let NewRotation : FRotator := arm.RelativeRotation
    let NewRotation : FRotator :=
      { NewRotation with Pitch := E.Round (NewRotation.Pitch + LookAxisVector.Y) }
    let NewRotation : FRotator :=
      { NewRotation with
        Pitch := FMath.Clamp NewRotation.Pitch
          PawnCameraConstants.MaxCameraPitchDown PawnCameraConstants.MaxCameraPitchUp }
    { self1 with SpringArm := some { arm with RelativeRotation := NewRotation } }

/-- A finite sequence of `Look` calls, in order. -/
def AMyPawn.LookSeq (E : Engine) (self : AMyPawn) (Values : List FVector2D) : AMyPawn :=
  Values.foldl (AMyPawn.Look E) self

/-- Pitch of the rig, when there is a rig. -/
def AMyPawn.rigPitch (self : AMyPawn) : Option ℚ :=
  self.SpringArm.map fun arm => arm.RelativeRotation.Pitch

/-- The invariant of the controller state: when there is a rig, its pitch is a value of
the scalar type and lies within `[MaxCameraPitchDown, MaxCameraPitchUp]`. -/
def AMyPawn.PitchInvariant (E : Engine) (self : AMyPawn) : Prop :=
  ∀ arm : USpringArmComponent, self.SpringArm = some arm →
    E.Round arm.RelativeRotation.Pitch = arm.RelativeRotation.Pitch ∧
    PawnCameraConstants.MaxCameraPitchDown ≤ arm.RelativeRotation.Pitch ∧
    arm.RelativeRotation.Pitch ≤ PawnCameraConstants.MaxCameraPitchUp

/-- A small concrete engine, an instance of the laws: rotators compose component
by component (as rotations about the vertical axis do), the forward and right
vectors are those of the quarter turns 0, 90 and 180, and of 270 for any other yaw,
and the scalar arithmetic is exact. -/
def uprightEngine : Engine where
  AddLocalRotation r d := ⟨r.Pitch + d.Pitch, r.Yaw + d.Yaw, r.Roll + d.Roll⟩
  GetForwardVector r :=
    if r.Yaw = 0 then ⟨1, 0, 0⟩ else if r.Yaw = 90 then ⟨0, 1, 0⟩
    else if r.Yaw = 180 then ⟨-1, 0, 0⟩ else ⟨0, -1, 0⟩
  GetRightVector r :=
    if r.Yaw = 0 then ⟨0, 1, 0⟩ else if r.Yaw = 90 then ⟨-1, 0, 0⟩
    else if r.Yaw = 180 then ⟨0, -1, 0⟩ else ⟨1, 0, 0⟩
  Round x := x

/-- The concrete engine with the scalar arithmetic of `double` (53 significant bits). -/
def binary64Engine : Engine :=
  { uprightEngine with Round := roundNearestEven 53 }

/-- The concrete engine with the scalar arithmetic of `float` (24 significant bits). -/
def binary32Engine : Engine :=
  { uprightEngine with Round := roundNearestEven 24 }

/-! ## Facts about the rounding -/
theorem roundHalfEven_floor_le (q : ℚ) : ⌊q⌋ ≤ roundHalfEven q := by
  unfold roundHalfEven
  simp only
  split_ifs <;> omega

theorem roundHalfEven_le_floor_succ (q : ℚ) : roundHalfEven q ≤ ⌊q⌋ + 1 := by
  unfold roundHalfEven
  simp only
  split_ifs <;> omega

theorem roundHalfEven_intCast (n : ℤ) : roundHalfEven (n : ℚ) = n := by
  unfold roundHalfEven
  simp

theorem roundHalfEven_mono {q1 q2 : ℚ} (h : q1 ≤ q2) : roundHalfEven q1 ≤ roundHalfEven q2 := by
  have hf : ⌊q1⌋ ≤ ⌊q2⌋ := Int.floor_mono h
  rcases hf.lt_or_eq with hlt | heq
  · calc roundHalfEven q1 ≤ ⌊q1⌋ + 1 := roundHalfEven_le_floor_succ q1
      _ ≤ ⌊q2⌋ := hlt
      _ ≤ roundHalfEven q2 := roundHalfEven_floor_le q2
  · unfold roundHalfEven
    simp only
    rw [heq]
    have hq : q1 - (⌊q2⌋ : ℚ) ≤ q2 - (⌊q2⌋ : ℚ) := by linarith
    split_ifs <;> first | omega | (exfalso; linarith)

theorem roundHalfEven_le_of_le {q : ℚ} {b : ℤ} (h : q ≤ b) : roundHalfEven q ≤ b := by
  have := roundHalfEven_mono h
  rwa [roundHalfEven_intCast] at this

theorem roundHalfEven_ge_of_ge {q : ℚ} {a : ℤ} (h : (a : ℚ) ≤ q) : a ≤ roundHalfEven q := by
  have := roundHalfEven_mono h
  rwa [roundHalfEven_intCast] at this

theorem two_zpow_log_le {x : ℚ} (hx : 0 < x) : (2 : ℚ) ^ Int.log 2 x ≤ x := by
  have := Int.zpow_log_le_self (R := ℚ) (b := 2) (by norm_num) hx
  simpa using this

theorem lt_two_zpow_log_succ (x : ℚ) : x < (2 : ℚ) ^ (Int.log 2 x + 1) := by
  have := Int.lt_zpow_succ_log_self (R := ℚ) (b := 2) (by norm_num) x
  simpa using this

theorem log_two_eq {x : ℚ} {e : ℤ} (h1 : (2 : ℚ) ^ e ≤ x) (h2 : x < (2 : ℚ) ^ (e + 1)) :
    Int.log 2 x = e := by
  have hx : 0 < x := lt_of_lt_of_le (zpow_pos (by norm_num) e) h1
  have a1 : e ≤ Int.log 2 x := by
    apply (Int.zpow_le_iff_le_log (R := ℚ) (b := 2) (by norm_num) hx).mp
    simpa using h1
  have a2 : Int.log 2 x < e + 1 := by
    apply (Int.lt_zpow_iff_log_lt (R := ℚ) (b := 2) (by norm_num) hx).mp
    simpa using h2
  omega


theorem ulp_pos (e : ℤ) : (0 : ℚ) < (2 : ℚ) ^ e := zpow_pos (by norm_num) e

theorem roundPos_succ (p : ℕ) (x : ℚ) :
    roundPos (p + 1) x =
      (roundHalfEven (x / (2 : ℚ) ^ (Int.log 2 x - p)) : ℚ) * (2 : ℚ) ^ (Int.log 2 x - p) := by
  unfold roundPos
  simp only
  have : Int.log 2 x - (((p + 1 : ℕ) : ℤ) - 1) = Int.log 2 x - p := by
    push_cast
    ring
  rw [this]

theorem two_zpow_split (e : ℤ) (p : ℕ) :
    (2 : ℚ) ^ e = (2 : ℚ) ^ p * (2 : ℚ) ^ (e - p) := by
  rw [← zpow_natCast, ← zpow_add₀ (by norm_num : (2 : ℚ) ≠ 0)]
  congr 1
  ring

theorem roundPos_bounds (p : ℕ) {x : ℚ} (hx : 0 < x) :
    (2 : ℚ) ^ Int.log 2 x ≤ roundPos (p + 1) x ∧
      roundPos (p + 1) x ≤ (2 : ℚ) ^ (Int.log 2 x + 1) := by
  rw [roundPos_succ]
  set e := Int.log 2 x with he
  have hu := ulp_pos (e - p)
  have h1 : (2 : ℚ) ^ e ≤ x := two_zpow_log_le hx
  have h2 : x < (2 : ℚ) ^ (e + 1) := lt_two_zpow_log_succ x
  have hlo : (((2 : ℤ) ^ p : ℤ) : ℚ) ≤ x / (2 : ℚ) ^ (e - p) := by
    rw [le_div_iff₀ hu]
    push_cast
    rw [← two_zpow_split]
    exact h1
  have hhi : x / (2 : ℚ) ^ (e - p) ≤ (((2 : ℤ) ^ (p + 1) : ℤ) : ℚ) := by
    rw [div_le_iff₀ hu]
    push_cast
    have := two_zpow_split (e + 1) (p + 1)
    have hexp : e + 1 - ((p + 1 : ℕ) : ℤ) = e - p := by
      push_cast
      ring
    rw [hexp] at this
    rw [← this]
    exact h2.le
  have a1 := roundHalfEven_ge_of_ge hlo
  have a2 := roundHalfEven_le_of_le hhi
  constructor
  · rw [two_zpow_split e p]
    apply mul_le_mul_of_nonneg_right _ hu.le
    exact_mod_cast a1
  · have := two_zpow_split (e + 1) (p + 1)
    have hexp : e + 1 - ((p + 1 : ℕ) : ℤ) = e - p := by
      push_cast
      ring
    rw [hexp] at this
    rw [this]
    apply mul_le_mul_of_nonneg_right _ hu.le
    exact_mod_cast a2

theorem roundPos_pos (p : ℕ) {x : ℚ} (hx : 0 < x) : 0 < roundPos (p + 1) x :=
  lt_of_lt_of_le (ulp_pos _) (roundPos_bounds p hx).1

theorem roundPos_mono (p : ℕ) {x y : ℚ} (hx : 0 < x) (hxy : x ≤ y) :
    roundPos (p + 1) x ≤ roundPos (p + 1) y := by
  have hy : 0 < y := lt_of_lt_of_le hx hxy
  have hlog : Int.log 2 x ≤ Int.log 2 y := Int.log_mono_right hx hxy
  rcases hlog.lt_or_eq with hlt | heq
  · calc roundPos (p + 1) x ≤ (2 : ℚ) ^ (Int.log 2 x + 1) := (roundPos_bounds p hx).2
      _ ≤ (2 : ℚ) ^ Int.log 2 y := zpow_le_zpow_right₀ (by norm_num) hlt
      _ ≤ roundPos (p + 1) y := (roundPos_bounds p hy).1
  · rw [roundPos_succ, roundPos_succ, heq]
    have hu := ulp_pos (Int.log 2 y - p)
    apply mul_le_mul_of_nonneg_right _ hu.le
    have : roundHalfEven (x / (2 : ℚ) ^ (Int.log 2 y - p)) ≤
        roundHalfEven (y / (2 : ℚ) ^ (Int.log 2 y - p)) :=
      roundHalfEven_mono (div_le_div_of_nonneg_right hxy hu.le)
    exact_mod_cast this


theorem roundPos_of_representable (p : ℕ) (m : ℕ) (k : ℤ) (hm0 : 0 < m)
    (hm : m < 2 ^ (p + 1)) : roundPos (p + 1) ((m : ℚ) * (2 : ℚ) ^ k) = (m : ℚ) * (2 : ℚ) ^ k := by
  have hx : (0 : ℚ) < (m : ℚ) * (2 : ℚ) ^ k := mul_pos (by exact_mod_cast hm0) (ulp_pos k)
  rw [roundPos_succ]
  set x : ℚ := (m : ℚ) * (2 : ℚ) ^ k with hxdef
  set e := Int.log 2 x with he
  have h1 : (2 : ℚ) ^ e ≤ x := two_zpow_log_le hx
  have hlt : x < (2 : ℚ) ^ ((p + 1 : ℕ) + k) := by
    rw [zpow_add₀ (by norm_num : (2 : ℚ) ≠ 0), zpow_natCast]
    apply mul_lt_mul_of_pos_right _ (ulp_pos k)
    exact_mod_cast hm
  have hek : e < (p + 1 : ℕ) + k :=
    (zpow_lt_zpow_iff_right₀ (by norm_num : (1 : ℚ) < 2)).mp (lt_of_le_of_lt h1 hlt)
  obtain ⟨j, hj⟩ : ∃ j : ℕ, (j : ℤ) = k - (e - p) := by
    refine ⟨(k - (e - p)).toNat, Int.toNat_of_nonneg ?_⟩
    push_cast at hek
    omega
  have hk : (2 : ℚ) ^ k = (2 : ℚ) ^ j * (2 : ℚ) ^ (e - p) := by
    rw [← zpow_natCast, ← zpow_add₀ (by norm_num : (2 : ℚ) ≠ 0), hj]
    congr 1
    ring
  have hq : x / (2 : ℚ) ^ (e - p) = (((m : ℤ) * (2 : ℤ) ^ j : ℤ) : ℚ) := by
    rw [hxdef, hk, div_eq_iff (ulp_pos (e - p)).ne']
    push_cast
    ring
  rw [hq, roundHalfEven_intCast, hxdef, hk]
  push_cast
  ring

theorem roundPos_representable (p : ℕ) {x : ℚ} (hx : 0 < x) :
    ∃ (m : ℕ) (k : ℤ), 0 < m ∧ m < 2 ^ (p + 1) ∧ roundPos (p + 1) x = (m : ℚ) * (2 : ℚ) ^ k := by
  have hb := roundPos_bounds p hx
  have hpos := roundPos_pos p hx
  rw [roundPos_succ] at hb hpos ⊢
  set e := Int.log 2 x with he
  set N := roundHalfEven (x / (2 : ℚ) ^ (e - p)) with hN
  have hu := ulp_pos (e - p)
  have hNpos : 0 < N := by
    have : (0 : ℚ) < (N : ℚ) := by
      by_contra hcon
      have := mul_nonpos_of_nonpos_of_nonneg (not_lt.mp hcon) hu.le
      linarith
    exact_mod_cast this
  have hNle : N ≤ 2 ^ (p + 1) := by
    have h2 := hb.2
    have hsplit := two_zpow_split (e + 1) (p + 1)
    have hexp : e + 1 - ((p + 1 : ℕ) : ℤ) = e - p := by
      push_cast
      ring
    rw [hexp] at hsplit
    rw [hsplit] at h2
    have := le_of_mul_le_mul_right h2 hu
    exact_mod_cast this
  rcases hNle.lt_or_eq with hlt | heq
  · refine ⟨N.toNat, e - p, by omega, ?_, ?_⟩
    · have : ((N.toNat : ℕ) : ℤ) < 2 ^ (p + 1) := by
        rw [Int.toNat_of_nonneg hNpos.le]
        exact hlt
      exact_mod_cast this
    · have : ((N.toNat : ℕ) : ℚ) = (N : ℚ) := by
        have := Int.toNat_of_nonneg hNpos.le
        exact_mod_cast this
      rw [this]
  · refine ⟨2 ^ p, e - p + 1, by positivity, ?_, ?_⟩
    · exact Nat.pow_lt_pow_right (by norm_num) (by omega)
    · rw [heq, zpow_add₀ (by norm_num : (2 : ℚ) ≠ 0)]
      push_cast
      ring

theorem roundPos_idem (p : ℕ) {x : ℚ} (hx : 0 < x) :
    roundPos (p + 1) (roundPos (p + 1) x) = roundPos (p + 1) x := by
  obtain ⟨m, k, hm0, hm, h⟩ := roundPos_representable p hx
  rw [h]
  exact roundPos_of_representable p m k hm0 hm

theorem roundNearestEven_of_pos (prec : ℕ) {x : ℚ} (hx : 0 < x) :
    roundNearestEven prec x = roundPos prec x := by
  unfold roundNearestEven
  rw [if_pos hx]

theorem roundNearestEven_of_neg (prec : ℕ) {x : ℚ} (hx : x < 0) :
    roundNearestEven prec x = -roundPos prec (-x) := by
  unfold roundNearestEven
  rw [if_neg (not_lt.mpr hx.le), if_pos hx]

theorem roundNearestEven_zero (prec : ℕ) : roundNearestEven prec 0 = 0 := by
  unfold roundNearestEven
  simp

theorem roundNearestEven_mono (p : ℕ) {x y : ℚ} (hxy : x ≤ y) :
    roundNearestEven (p + 1) x ≤ roundNearestEven (p + 1) y := by
  rcases lt_trichotomy x 0 with hx | hx | hx
  · rw [roundNearestEven_of_neg _ hx]
    have hrx := roundPos_pos p (neg_pos.mpr hx)
    rcases lt_trichotomy y 0 with hy | hy | hy
    · rw [roundNearestEven_of_neg _ hy]
      exact neg_le_neg (roundPos_mono p (neg_pos.mpr hy) (neg_le_neg hxy))
    · rw [hy, roundNearestEven_zero]
      linarith
    · rw [roundNearestEven_of_pos _ hy]
      have := roundPos_pos p hy
      linarith
  · rw [hx, roundNearestEven_zero]
    rcases (hx ▸ hxy : (0 : ℚ) ≤ y).lt_or_eq with hy | hy
    · rw [roundNearestEven_of_pos _ hy]
      exact (roundPos_pos p hy).le
    · rw [← hy, roundNearestEven_zero]
  · have hy : 0 < y := lt_of_lt_of_le hx hxy
    rw [roundNearestEven_of_pos _ hx, roundNearestEven_of_pos _ hy]
    exact roundPos_mono p hx hxy

theorem roundNearestEven_idem (p : ℕ) (x : ℚ) :
    roundNearestEven (p + 1) (roundNearestEven (p + 1) x) = roundNearestEven (p + 1) x := by
  rcases lt_trichotomy x 0 with hx | hx | hx
  · have hr := roundPos_pos p (neg_pos.mpr hx)
    rw [roundNearestEven_of_neg _ hx, roundNearestEven_of_neg _ (neg_neg_of_pos hr), neg_neg,
      roundPos_idem p (neg_pos.mpr hx)]
  · rw [hx, roundNearestEven_zero, roundNearestEven_zero]
  · have hr := roundPos_pos p hx
    rw [roundNearestEven_of_pos _ hx, roundNearestEven_of_pos _ hr, roundPos_idem p hx]

theorem roundNearestEven_intCast (p : ℕ) (n : ℤ) (hn : |n| < 2 ^ (p + 1)) :
    roundNearestEven (p + 1) (n : ℚ) = n := by
  rcases lt_trichotomy n 0 with hneg | hz | hpos
  · have hq : ((n : ℤ) : ℚ) < 0 := by exact_mod_cast hneg
    rw [roundNearestEven_of_neg _ hq]
    have h := roundPos_of_representable p (-n).toNat 0 (by omega)
      (by
        have : (((-n).toNat : ℕ) : ℤ) < 2 ^ (p + 1) := by
          rw [Int.toNat_of_nonneg (by omega), ← abs_of_neg hneg]
          exact hn
        exact_mod_cast this)
    have hc : (((-n).toNat : ℕ) : ℚ) = -(n : ℚ) := by
      have := Int.toNat_of_nonneg (by omega : 0 ≤ -n)
      exact_mod_cast this
    rw [hc, zpow_zero, mul_one] at h
    rw [h, neg_neg]
  · rw [hz]
    simp [roundNearestEven_zero]
  · have hq : (0 : ℚ) < ((n : ℤ) : ℚ) := by exact_mod_cast hpos
    rw [roundNearestEven_of_pos _ hq]
    have h := roundPos_of_representable p n.toNat 0 (by omega)
      (by
        have : ((n.toNat : ℕ) : ℤ) < 2 ^ (p + 1) := by
          rw [Int.toNat_of_nonneg hpos.le, ← abs_of_pos hpos]
          exact hn
        exact_mod_cast this)
    have hc : ((n.toNat : ℕ) : ℚ) = (n : ℚ) := by
      have := Int.toNat_of_nonneg hpos.le
      exact_mod_cast this
    rw [hc, zpow_zero, mul_one] at h
    exact h

theorem roundHalfEven_of_lt_half {q : ℚ} {f : ℤ} (h1 : (f : ℚ) ≤ q) (h2 : q - f < 1 / 2) :
    roundHalfEven q = f := by
  have hf : ⌊q⌋ = f := Int.floor_eq_iff.mpr ⟨h1, by linarith⟩
  unfold roundHalfEven
  simp only
  rw [hf, if_pos h2]

theorem roundHalfEven_of_gt_half {q : ℚ} {f : ℤ} (h1 : 1 / 2 < q - f) (h2 : q < f + 1) :
    roundHalfEven q = f + 1 := by
  have hf : ⌊q⌋ = f := Int.floor_eq_iff.mpr ⟨by linarith, h2⟩
  unfold roundHalfEven
  simp only
  rw [hf, if_neg (not_lt.mpr h1.le), if_pos h1]

/-- Evaluation of the rounding at a positive `x` of known binade `e` that rounds down. -/
theorem roundNearestEven_down (p : ℕ) {x : ℚ} (e f : ℤ) (h1 : (2 : ℚ) ^ e ≤ x)
    (h2 : x < (2 : ℚ) ^ (e + 1)) (h3 : (f : ℚ) ≤ x / (2 : ℚ) ^ (e - p))
    (h4 : x / (2 : ℚ) ^ (e - p) - f < 1 / 2) :
    roundNearestEven (p + 1) x = (f : ℚ) * (2 : ℚ) ^ (e - p) := by
  have hx : 0 < x := lt_of_lt_of_le (ulp_pos e) h1
  rw [roundNearestEven_of_pos _ hx, roundPos_succ, log_two_eq h1 h2,
    roundHalfEven_of_lt_half h3 h4]

/-- Evaluation of the rounding at a positive `x` of known binade `e` that rounds up. -/
theorem roundNearestEven_up (p : ℕ) {x : ℚ} (e f : ℤ) (h1 : (2 : ℚ) ^ e ≤ x)
    (h2 : x < (2 : ℚ) ^ (e + 1)) (h3 : 1 / 2 < x / (2 : ℚ) ^ (e - p) - f)
    (h4 : x / (2 : ℚ) ^ (e - p) < f + 1) :
    roundNearestEven (p + 1) x = ((f + 1 : ℤ) : ℚ) * (2 : ℚ) ^ (e - p) := by
  have hx : 0 < x := lt_of_lt_of_le (ulp_pos e) h1
  rw [roundNearestEven_of_pos _ hx, roundPos_succ, log_two_eq h1 h2,
    roundHalfEven_of_gt_half h3 h4]

theorem roundNearestEven_RoundLaw (p : ℕ) (hp : 23 ≤ p) :
    (∀ x y : ℚ, x ≤ y → roundNearestEven (p + 1) x ≤ roundNearestEven (p + 1) y) ∧
    (∀ x : ℚ, roundNearestEven (p + 1) (roundNearestEven (p + 1) x) =
      roundNearestEven (p + 1) x) ∧
    (∀ n : ℤ, |n| < 16777216 → roundNearestEven (p + 1) n = n) := by
  refine ⟨fun x y h => roundNearestEven_mono p h, roundNearestEven_idem p, ?_⟩
  intro n hn
  apply roundNearestEven_intCast p n
  have h24 : (16777216 : ℤ) = 2 ^ (23 + 1) := by norm_num
  calc |n| < 16777216 := hn
    _ = 2 ^ (23 + 1) := h24
    _ ≤ 2 ^ (p + 1) := pow_le_pow_right₀ (by norm_num) (by omega)

/-! ## Facts about the engine arithmetic -/

theorem FMath.Min_eq_min (A B : ℚ) : FMath.Min A B = min A B := by
  unfold FMath.Min
  split_ifs with h
  · exact (min_eq_left h.le).symm
  · exact (min_eq_right (not_lt.mp h)).symm

theorem FMath.Max_eq_max (A B : ℚ) : FMath.Max A B = max A B := by
  unfold FMath.Max
  split_ifs with h
  · exact (max_eq_left h.le).symm
  · exact (max_eq_right (not_lt.mp h)).symm

theorem FMath.Clamp_eq (X lo hi : ℚ) : FMath.Clamp X lo hi = max lo (min hi X) := by
  unfold FMath.Clamp
  rw [FMath.Max_eq_max, FMath.Min_eq_min, max_comm, min_comm]

theorem FMath.Clamp_bounds (X lo hi : ℚ) (h : lo ≤ hi) :
    lo ≤ FMath.Clamp X lo hi ∧ FMath.Clamp X lo hi ≤ hi := by
  rw [FMath.Clamp_eq]
  exact ⟨le_max_left _ _, max_le h (min_le_left _ _)⟩

theorem FMath.Clamp_of_mem (X lo hi : ℚ) (h1 : lo ≤ X) (h2 : X ≤ hi) :
    FMath.Clamp X lo hi = X := by
  rw [FMath.Clamp_eq, min_eq_right h2, max_eq_right h1]

theorem FMath.Clamp_of_ge (X lo hi : ℚ) (h : lo ≤ hi) (h2 : hi ≤ X) :
    FMath.Clamp X lo hi = hi := by
  rw [FMath.Clamp_eq, min_eq_left h2, max_eq_right h]

theorem FMath.Clamp_of_le (X lo hi : ℚ) (h1 : X ≤ lo) :
    FMath.Clamp X lo hi = lo := by
  rw [FMath.Clamp_eq]
  exact max_eq_left (le_trans (min_le_right _ _) h1)

theorem cameraPitch_range :
    PawnCameraConstants.MaxCameraPitchDown ≤ PawnCameraConstants.MaxCameraPitchUp := by
  norm_num [PawnCameraConstants.MaxCameraPitchDown, PawnCameraConstants.MaxCameraPitchUp]

/-! ## Facts about the concrete engines -/

theorem uprightEngine_ZeroDeltaLaw : uprightEngine.ZeroDeltaLaw := by
  intro r
  simp [uprightEngine]

theorem uprightEngine_YawLaw : uprightEngine.YawLaw := by
  intro y x
  exact ⟨0, by simp [uprightEngine]⟩

theorem uprightEngine_AxesLaw : uprightEngine.AxesLaw := by
  intro r
  simp only [uprightEngine]
  split_ifs <;> simp [FVector.Dot]

theorem uprightEngine_RoundLaw : uprightEngine.RoundLaw :=
  ⟨fun _ _ h => h, fun _ => rfl, fun _ _ => rfl⟩

theorem binary64Engine_ZeroDeltaLaw : binary64Engine.ZeroDeltaLaw :=
  uprightEngine_ZeroDeltaLaw

theorem binary64Engine_RoundLaw : binary64Engine.RoundLaw :=
  roundNearestEven_RoundLaw 52 (by norm_num)

theorem binary32Engine_RoundLaw : binary32Engine.RoundLaw :=
  roundNearestEven_RoundLaw 23 (by norm_num)

theorem Engine.RoundLaw.round_int {E : Engine} (hR : E.RoundLaw) (n : ℤ)
    (hn : |n| < 16777216) : E.Round (n : ℚ) = n :=
  hR.2.2 n hn

theorem Engine.RoundLaw.round_ge_eighty {E : Engine} (hR : E.RoundLaw) {x : ℚ}
    (hx : 80 ≤ x) : 80 ≤ E.Round x := by
  have h := hR.1 80 x hx
  have h80 : E.Round 80 = 80 := by
    have := hR.round_int 80 (by norm_num)
    simpa using this
  rwa [h80] at h

theorem Engine.RoundLaw.round_le_neg_eighty {E : Engine} (hR : E.RoundLaw) {x : ℚ}
    (hx : x ≤ -80) : E.Round x ≤ -80 := by
  have h := hR.1 x (-80) hx
  have h80 : E.Round (-80) = -80 := by
    have := hR.round_int (-80) (by norm_num)
    simpa using this
  rwa [h80] at h

/-! ## Facts about `Look` and `Move` -/

theorem AMyPawn.Look_ActorRotation (E : Engine) (s : AMyPawn) (v : FVector2D) :
    (AMyPawn.Look E s v).ActorRotation = E.AddLocalRotation s.ActorRotation ⟨0, v.X, 0⟩ := by
  unfold AMyPawn.Look
  cases h : s.SpringArm <;> simp [h]

theorem AMyPawn.Look_SpringArm_none (E : Engine) (s : AMyPawn) (v : FVector2D)
    (h : s.SpringArm = none) : (AMyPawn.Look E s v).SpringArm = none := by
  unfold AMyPawn.Look
  simp [h]

theorem AMyPawn.Look_SpringArm_some (E : Engine) (s : AMyPawn) (v : FVector2D)
    (arm : USpringArmComponent) (h : s.SpringArm = some arm) :
    (AMyPawn.Look E s v).SpringArm =
      some { RelativeRotation :=
               ⟨FMath.Clamp (E.Round (arm.RelativeRotation.Pitch + v.Y))
                  PawnCameraConstants.MaxCameraPitchDown PawnCameraConstants.MaxCameraPitchUp,
                arm.RelativeRotation.Yaw, arm.RelativeRotation.Roll⟩
             TargetArmLength := arm.TargetArmLength } := by
  unfold AMyPawn.Look
  simp [h]

theorem AMyPawn.Look_rigPitch (E : Engine) (s : AMyPawn) (v : FVector2D)
    (arm : USpringArmComponent) (h : s.SpringArm = some arm) :
    (AMyPawn.Look E s v).rigPitch =
      some (FMath.Clamp (E.Round (arm.RelativeRotation.Pitch + v.Y))
        PawnCameraConstants.MaxCameraPitchDown PawnCameraConstants.MaxCameraPitchUp) := by
  unfold AMyPawn.rigPitch
  rw [AMyPawn.Look_SpringArm_some E s v arm h]
  rfl

theorem AMyPawn.Look_rig_rotation (E : Engine) (s : AMyPawn) (v : FVector2D)
    (arm : USpringArmComponent) (h : s.SpringArm = some arm) :
    (AMyPawn.Look E s v).SpringArm.map USpringArmComponent.RelativeRotation =
      some ⟨FMath.Clamp (E.Round (arm.RelativeRotation.Pitch + v.Y)) (-80) 80,
        arm.RelativeRotation.Yaw, arm.RelativeRotation.Roll⟩ := by
  rw [AMyPawn.Look_SpringArm_some E s v arm h]
  rfl

theorem AMyPawn.LookSeq_nil (E : Engine) (s : AMyPawn) : AMyPawn.LookSeq E s [] = s := rfl

theorem AMyPawn.LookSeq_cons (E : Engine) (s : AMyPawn) (v : FVector2D)
    (vs : List FVector2D) :
    AMyPawn.LookSeq E s (v :: vs) = AMyPawn.LookSeq E (AMyPawn.Look E s v) vs := rfl

theorem AMyPawn.LookSeq_append_singleton (E : Engine) (s : AMyPawn) (vs : List FVector2D)
    (v : FVector2D) :
    AMyPawn.LookSeq E s (vs ++ [v]) = AMyPawn.Look E (AMyPawn.LookSeq E s vs) v := by
  unfold AMyPawn.LookSeq
  rw [List.foldl_append]
  rfl

theorem AMyPawn.LookSeq_has_rig (E : Engine) (vs : List FVector2D) :
    ∀ (s : AMyPawn) (arm : USpringArmComponent), s.SpringArm = some arm →
      ∃ arm2, (AMyPawn.LookSeq E s vs).SpringArm = some arm2 := by
  induction vs with
  | nil => intro s arm h; exact ⟨arm, h⟩
  | cons v vs ih =>
    intro s arm h
    rw [AMyPawn.LookSeq_cons]
    exact ih _ _ (AMyPawn.Look_SpringArm_some E s v arm h)

theorem AMyPawn.LookSeq_rigPitch (E : Engine) (vs : List FVector2D) :
    ∀ (s : AMyPawn) (arm : USpringArmComponent), s.SpringArm = some arm →
      (AMyPawn.LookSeq E s vs).rigPitch =
        some (vs.foldl (fun p v => FMath.Clamp (E.Round (p + v.Y))
          PawnCameraConstants.MaxCameraPitchDown PawnCameraConstants.MaxCameraPitchUp)
          arm.RelativeRotation.Pitch) := by
  induction vs with
  | nil =>
    intro s arm h
    simp [AMyPawn.LookSeq_nil, AMyPawn.rigPitch, h]
  | cons v vs ih =>
    intro s arm h
    rw [AMyPawn.LookSeq_cons, ih _ _ (AMyPawn.Look_SpringArm_some E s v arm h)]
    rfl

theorem AMyPawn.LookSeq_ActorRotation (E : Engine) (hE : E.YawLaw) (vs : List FVector2D) :
    ∀ (s : AMyPawn) (y0 : ℚ), s.ActorRotation = ⟨0, y0, 0⟩ →
      ∃ k : ℤ, (AMyPawn.LookSeq E s vs).ActorRotation =
        ⟨0, y0 + (vs.map FVector2D.X).sum + 360 * k, 0⟩ := by
  induction vs with
  | nil =>
    intro s y0 h
    exact ⟨0, by simp [AMyPawn.LookSeq_nil, h]⟩
  | cons v vs ih =>
    intro s y0 h
    obtain ⟨k1, hk1⟩ := hE y0 v.X
    have hstep : (AMyPawn.Look E s v).ActorRotation = ⟨0, y0 + v.X + 360 * k1, 0⟩ := by
      rw [AMyPawn.Look_ActorRotation, h, hk1]
    obtain ⟨k2, hk2⟩ := ih (AMyPawn.Look E s v) _ hstep
    refine ⟨k1 + k2, ?_⟩
    rw [AMyPawn.LookSeq_cons, hk2]
    simp only [List.map_cons, List.sum_cons, Int.cast_add]
    congr 1
    ring

/-- The clamp of a rounded value is a value of the scalar type. -/
theorem round_clamp_round {E : Engine} (hR : E.RoundLaw) (x : ℚ) :
    E.Round (FMath.Clamp (E.Round x)
        PawnCameraConstants.MaxCameraPitchDown PawnCameraConstants.MaxCameraPitchUp) =
      FMath.Clamp (E.Round x)
        PawnCameraConstants.MaxCameraPitchDown PawnCameraConstants.MaxCameraPitchUp := by
  have h80 : E.Round 80 = 80 := by simpa using hR.round_int 80 (by norm_num)
  have hm80 : E.Round (-80) = -80 := by simpa using hR.round_int (-80) (by norm_num)
  simp only [PawnCameraConstants.MaxCameraPitchDown, PawnCameraConstants.MaxCameraPitchUp]
  rcases le_total (E.Round x) (-80) with h | h
  · rw [FMath.Clamp_of_le _ _ _ h, hm80]
  · rcases le_total (E.Round x) 80 with h2 | h2
    · rw [FMath.Clamp_of_mem _ _ _ h h2, hR.2.1]
    · rw [FMath.Clamp_of_ge _ _ _ (by norm_num) h2, h80]

/-- The constructed pawn satisfies the pitch invariant. -/
theorem AMyPawn.construct_PitchInvariant {E : Engine} (hR : E.RoundLaw) :
    AMyPawn.construct.PitchInvariant E := by
  intro arm h
  have h2 : arm = ⟨⟨0, 0, 0⟩, 300⟩ := (Option.some.inj h).symm
  subst h2
  have h0 : E.Round 0 = 0 := by simpa using hR.round_int 0 (by norm_num)
  refine ⟨h0, ?_, ?_⟩ <;>
    norm_num [PawnCameraConstants.MaxCameraPitchDown, PawnCameraConstants.MaxCameraPitchUp]

/-- Every `Look`, from any state, establishes the pitch invariant. -/
theorem AMyPawn.Look_PitchInvariant {E : Engine} (hR : E.RoundLaw) (s : AMyPawn)
    (v : FVector2D) : (AMyPawn.Look E s v).PitchInvariant E := by
  intro arm2 h2
  cases hs : s.SpringArm with
  | none =>
    rw [AMyPawn.Look_SpringArm_none E s v hs] at h2
    cases h2
  | some arm =>
    rw [AMyPawn.Look_SpringArm_some E s v arm hs] at h2
    have h3 := (Option.some.inj h2).symm
    subst h3
    exact ⟨round_clamp_round hR _, FMath.Clamp_bounds _ _ _ cameraPitch_range⟩

/-- Every state reached from the constructed pawn by `Look` calls satisfies the pitch
invariant. -/
theorem AMyPawn.LookSeq_construct_PitchInvariant {E : Engine} (hR : E.RoundLaw)
    (vs : List FVector2D) : (AMyPawn.LookSeq E AMyPawn.construct vs).PitchInvariant E := by
  rcases List.eq_nil_or_concat vs with h | ⟨ws, w, h⟩
  · rw [h]
    exact AMyPawn.construct_PitchInvariant hR
  · rw [h, List.concat_eq_append, AMyPawn.LookSeq_append_singleton]
    exact AMyPawn.Look_PitchInvariant hR _ w

/-- Under exact sums along the way, `k` steps of `d` from `p` give `min 80 (p + k d)`. -/
theorem clamp_fold_replicate_exact {E : Engine} (hR : E.RoundLaw) (p d : ℚ)
    (h1 : -80 ≤ p) (hd : 0 ≤ d) (n : ℕ)
    (hex : ∀ j : ℕ, 1 ≤ j → j ≤ n → p + j * d ≤ 80 → E.Round (p + j * d) = p + j * d) :
    ∀ k : ℕ, k ≤ n → p ≤ 80 →
      (List.replicate k (⟨0, d⟩ : FVector2D)).foldl (fun p v => FMath.Clamp (E.Round (p + v.Y))
          PawnCameraConstants.MaxCameraPitchDown PawnCameraConstants.MaxCameraPitchUp) p
        = min 80 (p + k * d) := by
  intro k
  induction k with
  | zero =>
    intro _ h2
    simp [h2]
  | succ k ih =>
    intro hk h2
    rw [List.replicate_succ', List.foldl_append, ih (by omega) h2]
    simp only [List.foldl_cons, List.foldl_nil, PawnCameraConstants.MaxCameraPitchDown,
      PawnCameraConstants.MaxCameraPitchUp]
    have hkd : (0 : ℚ) ≤ k * d := mul_nonneg (Nat.cast_nonneg k) hd
    have hcast : p + ((k + 1 : ℕ) : ℚ) * d = p + k * d + d := by
      push_cast
      ring
    rcases le_or_lt (p + ((k + 1 : ℕ) : ℚ) * d) 80 with hle | hgt
    · have hr := hex (k + 1) (by omega) hk hle
      rw [min_eq_right (by linarith), ← hcast, hr, min_eq_right hle]
      exact FMath.Clamp_of_mem _ _ _ (by linarith) hle
    · rw [min_eq_left hgt.le]
      apply FMath.Clamp_of_ge _ _ _ (by norm_num)
      apply hR.round_ge_eighty
      rcases le_total (p + k * d) 80 with h | h
      · rw [min_eq_right h]
        linarith
      · rw [min_eq_left h]
        linarith

/-- In `double`, the sum of `80 - 2 ^ (-46)` and `2 ^ (-48)` rounds back to the first. -/
theorem binary64_absorbs :
    binary64Engine.Round (80 - 1 / 2 ^ 46 + 1 / 2 ^ 48) = 80 - 1 / 2 ^ 46 := by
  have h := roundNearestEven_down 52 (x := 80 - 1 / 2 ^ 46 + 1 / 2 ^ 48) 6
    (80 * 2 ^ 46 - 1) (by norm_num) (by norm_num) (by norm_num) (by norm_num)
  show roundNearestEven 53 _ = _
  rw [h]
  norm_num

/-- In `float`, the sum of `80 - 2 ^ (-17)` and `2 ^ (-19)` rounds back to the first. -/
theorem binary32_absorbs :
    binary32Engine.Round (80 - 1 / 2 ^ 17 + 1 / 2 ^ 19) = 80 - 1 / 2 ^ 17 := by
  have h := roundNearestEven_down 23 (x := 80 - 1 / 2 ^ 17 + 1 / 2 ^ 19) 6
    (80 * 2 ^ 17 - 1) (by norm_num) (by norm_num) (by norm_num) (by norm_num)
  show roundNearestEven 24 _ = _
  rw [h]
  norm_num

/-- In `double`, `1 + 3 * 2 ^ (-55)` rounds to 1 and `1 + 6 * 2 ^ (-55)` to
`1 + 2 ^ (-52)`. -/
theorem binary64_one_plus :
    binary64Engine.Round (1 + 3 / 2 ^ 55) = 1 ∧
    binary64Engine.Round (1 + (3 / 2 ^ 55 + 3 / 2 ^ 55)) = 1 + 1 / 2 ^ 52 := by
  have h1 := roundNearestEven_down 52 (x := 1 + 3 / 2 ^ 55) 0 (2 ^ 52)
    (by norm_num) (by norm_num) (by norm_num) (by norm_num)
  have h2 := roundNearestEven_up 52 (x := 1 + (3 / 2 ^ 55 + 3 / 2 ^ 55)) 0 (2 ^ 52)
    (by norm_num) (by norm_num) (by norm_num) (by norm_num)
  constructor
  · show roundNearestEven 53 _ = _
    rw [h1]
    norm_num
  · show roundNearestEven 53 _ = _
    rw [h2]
    norm_num

/-- In `float`, `1 + 3 * 2 ^ (-26)` rounds to 1 and `1 + 6 * 2 ^ (-26)` to
`1 + 2 ^ (-23)`. -/
theorem binary32_one_plus :
    binary32Engine.Round (1 + 3 / 2 ^ 26) = 1 ∧
    binary32Engine.Round (1 + (3 / 2 ^ 26 + 3 / 2 ^ 26)) = 1 + 1 / 2 ^ 23 := by
  have h1 := roundNearestEven_down 23 (x := 1 + 3 / 2 ^ 26) 0 (2 ^ 23)
    (by norm_num) (by norm_num) (by norm_num) (by norm_num)
  have h2 := roundNearestEven_up 23 (x := 1 + (3 / 2 ^ 26 + 3 / 2 ^ 26)) 0 (2 ^ 23)
    (by norm_num) (by norm_num) (by norm_num) (by norm_num)
  constructor
  · show roundNearestEven 24 _ = _
    rw [h1]
    norm_num
  · show roundNearestEven 24 _ = _
    rw [h2]
    norm_num

/-! ## The claims -/

/-- C1. Pitch bound invariant: on a pawn with a spring arm, whatever the pitch of the arm
before, the pitch after one `Look` lies in `[-80, 80]`; and along any finite sequence of
`Look` calls the pitch lies in `[MaxCameraPitchDown, MaxCameraPitchUp]` after each call
(after the first `k` calls, for every `k` from 1 to the length of the sequence). -/
theorem C1_pitch_bound_invariant (E : Engine) (s : AMyPawn) (arm : USpringArmComponent)
    (hrig : s.SpringArm = some arm) :
    (∀ v : FVector2D, ∃ p : ℚ, (AMyPawn.Look E s v).rigPitch = some p ∧ -80 ≤ p ∧ p ≤ 80) ∧
    (∀ (vs : List FVector2D) (k : ℕ), 0 < k → k ≤ vs.length →
      ∃ p : ℚ, (AMyPawn.LookSeq E s (vs.take k)).rigPitch = some p ∧
        PawnCameraConstants.MaxCameraPitchDown ≤ p ∧
        p ≤ PawnCameraConstants.MaxCameraPitchUp) := by
  constructor
  · intro v
    refine ⟨_, AMyPawn.Look_rigPitch E s v arm hrig, ?_⟩
    simpa [PawnCameraConstants.MaxCameraPitchDown, PawnCameraConstants.MaxCameraPitchUp]
      using FMath.Clamp_bounds (E.Round (arm.RelativeRotation.Pitch + v.Y)) _ _
        cameraPitch_range
  · intro vs k hk hlen
    have hne : vs.take k ≠ [] := by
      intro h
      have hl := congrArg List.length h
      rw [List.length_take, min_eq_left hlen] at hl
      simp at hl
      omega
    obtain ⟨ws, w, hw⟩ : ∃ ws w, vs.take k = ws ++ [w] :=
      ⟨(vs.take k).dropLast, (vs.take k).getLast hne, (List.dropLast_append_getLast hne).symm⟩
    rw [hw, AMyPawn.LookSeq_append_singleton]
    obtain ⟨arm2, harm2⟩ := AMyPawn.LookSeq_has_rig E ws s arm hrig
    exact ⟨_, AMyPawn.Look_rigPitch E _ w arm2 harm2,
      FMath.Clamp_bounds (E.Round (arm2.RelativeRotation.Pitch + w.Y)) _ _ cameraPitch_range⟩

/-- Witness of C1 on the freshly constructed pawn. -/
theorem C1_pitch_bound_invariant_witness :
    AMyPawn.construct.SpringArm = some ⟨⟨0, 0, 0⟩, 300⟩ ∧
    ((∀ v : FVector2D, ∃ p : ℚ,
        (AMyPawn.Look uprightEngine AMyPawn.construct v).rigPitch = some p ∧
          -80 ≤ p ∧ p ≤ 80) ∧
     (∀ (vs : List FVector2D) (k : ℕ), 0 < k → k ≤ vs.length →
        ∃ p : ℚ, (AMyPawn.LookSeq uprightEngine AMyPawn.construct (vs.take k)).rigPitch
            = some p ∧
          PawnCameraConstants.MaxCameraPitchDown ≤ p ∧
          p ≤ PawnCameraConstants.MaxCameraPitchUp)) :=
  ⟨rfl, C1_pitch_bound_invariant uprightEngine AMyPawn.construct ⟨⟨0, 0, 0⟩, 300⟩ rfl⟩

/-- C2. On a pawn whose spring arm has pitch `p`, the pitch after `Look v` is
`clamp (p + v.Y) (-80) 80`, that is `max (-80) (min 80 (p + v.Y))`, the sum being the
scalar sum of the source (the exact sum, rounded). In particular, under the law of the
rounding, from an arm pitch of 0, `Look (0, 100)` gives pitch 80 and a following
`Look (0, -200)` gives pitch -80. -/
theorem C2_pitch_is_clamped_sum (E : Engine) (s : AMyPawn) (arm : USpringArmComponent)
    (hrig : s.SpringArm = some arm) :
    (∀ v : FVector2D,
      (AMyPawn.Look E s v).rigPitch =
          some (FMath.Clamp (E.Round (arm.RelativeRotation.Pitch + v.Y)) (-80) 80) ∧
      (AMyPawn.Look E s v).rigPitch =
          some (max (-80) (min 80 (E.Round (arm.RelativeRotation.Pitch + v.Y))))) ∧
    (E.RoundLaw → arm.RelativeRotation.Pitch = 0 →
      (AMyPawn.Look E s ⟨0, 100⟩).rigPitch = some 80 ∧
      (AMyPawn.Look E (AMyPawn.Look E s ⟨0, 100⟩) ⟨0, -200⟩).rigPitch = some (-80)) := by
  have hstep : ∀ (t : AMyPawn) (a : USpringArmComponent), t.SpringArm = some a →
      ∀ v : FVector2D, (AMyPawn.Look E t v).rigPitch =
        some (max (-80) (min 80 (E.Round (a.RelativeRotation.Pitch + v.Y)))) := by
    intro t a ha v
    rw [AMyPawn.Look_rigPitch E t v a ha, FMath.Clamp_eq]
    rfl
  refine ⟨fun v => ⟨AMyPawn.Look_rigPitch E s v arm hrig, hstep s arm hrig v⟩, ?_⟩
  intro hR hp
  have h1 : (80 : ℚ) ≤ E.Round (0 + 100) := hR.round_ge_eighty (by norm_num)
  have hfirst : (AMyPawn.Look E s ⟨0, 100⟩).rigPitch = some 80 := by
    rw [hstep s arm hrig, hp]
    simp only
    rw [min_eq_left h1, max_eq_right (by norm_num)]
  refine ⟨hfirst, ?_⟩
  have h2 : E.Round (80 + -200) ≤ -80 := hR.round_le_neg_eighty (by norm_num)
  rw [hstep _ _ (AMyPawn.Look_SpringArm_some E s ⟨0, 100⟩ arm hrig)]
  simp only [hp, PawnCameraConstants.MaxCameraPitchDown, PawnCameraConstants.MaxCameraPitchUp]
  rw [FMath.Clamp_of_ge _ _ _ (by norm_num) h1, min_eq_right (by linarith),
    max_eq_left h2]

/-- Witness of C2: the scenario of the specification, from the constructed pawn
(body yaw 0, rig pitch 0), in `double` arithmetic. -/
theorem C2_pitch_is_clamped_sum_witness :
    AMyPawn.construct.SpringArm = some ⟨⟨0, 0, 0⟩, 300⟩ ∧ binary64Engine.RoundLaw ∧
    (AMyPawn.Look binary64Engine AMyPawn.construct ⟨0, 100⟩).rigPitch = some 80 ∧
    (AMyPawn.Look binary64Engine (AMyPawn.Look binary64Engine AMyPawn.construct ⟨0, 100⟩)
      ⟨0, -200⟩).rigPitch = some (-80) :=
  ⟨rfl, binary64Engine_RoundLaw,
    (C2_pitch_is_clamped_sum binary64Engine AMyPawn.construct ⟨⟨0, 0, 0⟩, 300⟩ rfl).2
      binary64Engine_RoundLaw rfl⟩

/-- C3, as stated, fails: on a spring arm whose relative rotation is
(pitch 0, yaw 30, roll 15), `Look (0, 10)` leaves the relative rotation
(pitch 10, yaw 30, roll 15), which is not (pitch 10, yaw 0, roll 0). -/
theorem C3_rig_rotation_counterexample :
    (AMyPawn.Look uprightEngine
        { ActorRotation := ⟨0, 0, 0⟩
          SpringArm := some { RelativeRotation := ⟨0, 30, 15⟩, TargetArmLength := 300 } }
        ⟨0, 10⟩).SpringArm.map USpringArmComponent.RelativeRotation = some ⟨10, 30, 15⟩ ∧
    (AMyPawn.Look uprightEngine
        { ActorRotation := ⟨0, 0, 0⟩
          SpringArm := some { RelativeRotation := ⟨0, 30, 15⟩, TargetArmLength := 300 } }
        ⟨0, 10⟩).SpringArm.map USpringArmComponent.RelativeRotation ≠ some ⟨10, 0, 0⟩ := by
  have h := AMyPawn.Look_rig_rotation uprightEngine
    { ActorRotation := ⟨0, 0, 0⟩
      SpringArm := some { RelativeRotation := ⟨0, 30, 15⟩, TargetArmLength := 300 } }
    ⟨0, 10⟩ { RelativeRotation := ⟨0, 30, 15⟩, TargetArmLength := 300 } rfl
  have hc : FMath.Clamp (uprightEngine.Round ((0 : ℚ) + 10)) (-80) 80 = 10 := by
    show FMath.Clamp ((0 : ℚ) + 10) (-80) 80 = 10
    rw [FMath.Clamp_eq]
    norm_num
  rw [h]
  simp only [hc]
  refine ⟨trivial, ?_⟩
  intro hne
  have hy := congrArg FRotator.Yaw (Option.some.inj hne)
  norm_num at hy

/-- C3, amended. On a pawn with a spring arm, the relative rotation of the arm after
`Look v` has pitch `clamp (p + v.Y) (-80) 80` (the sum being the scalar sum of the source)
and the yaw and roll the arm had before the call; the arm length is kept. Hence it is
(clamped pitch, 0, 0) whenever the yaw and roll of the arm were 0 before the call, as the
constructor leaves them. -/
theorem C3_rig_rotation_keeps_yaw_roll (E : Engine) (s : AMyPawn)
    (arm : USpringArmComponent) (hrig : s.SpringArm = some arm) (v : FVector2D) :
    (AMyPawn.Look E s v).SpringArm =
        some { RelativeRotation :=
                 ⟨FMath.Clamp (E.Round (arm.RelativeRotation.Pitch + v.Y)) (-80) 80,
                  arm.RelativeRotation.Yaw, arm.RelativeRotation.Roll⟩
               TargetArmLength := arm.TargetArmLength } ∧
    (arm.RelativeRotation.Yaw = 0 → arm.RelativeRotation.Roll = 0 →
      (AMyPawn.Look E s v).SpringArm.map USpringArmComponent.RelativeRotation =
        some ⟨FMath.Clamp (E.Round (arm.RelativeRotation.Pitch + v.Y)) (-80) 80, 0, 0⟩) := by
  refine ⟨AMyPawn.Look_SpringArm_some E s v arm hrig, ?_⟩
  intro hy hr
  rw [AMyPawn.Look_rig_rotation E s v arm hrig, hy, hr]

/-- Witness of the amended C3 on the constructed pawn, whose arm has zero yaw and roll. -/
theorem C3_rig_rotation_keeps_yaw_roll_witness :
    AMyPawn.construct.SpringArm = some ⟨⟨0, 0, 0⟩, 300⟩ ∧
    (AMyPawn.Look uprightEngine AMyPawn.construct ⟨5, 10⟩).SpringArm.map
        USpringArmComponent.RelativeRotation =
      some ⟨FMath.Clamp (0 + 10) (-80) 80, 0, 0⟩ :=
  ⟨rfl, (C3_rig_rotation_keeps_yaw_roll uprightEngine AMyPawn.construct
    ⟨⟨0, 0, 0⟩, 300⟩ rfl ⟨5, 10⟩).2 rfl rfl⟩

/-- C4. Yaw accumulation: under the yaw law of the engine, on a pawn whose body has yaw
`y0` and zero pitch and roll, after `Look` on each of `v1 .. vn` in order the body rotation
is (pitch 0, yaw `y0 + (v1.X + ... + vn.X) + 360 k`, roll 0) for some integer `k`,
whatever the `Y` components and whatever the spring arm is. -/
theorem C4_yaw_accumulation (E : Engine) (hE : E.YawLaw) (s : AMyPawn) (y0 : ℚ)
    (hbody : s.ActorRotation = ⟨0, y0, 0⟩) (vs : List FVector2D) :
    ∃ k : ℤ, (AMyPawn.LookSeq E s vs).ActorRotation =
      ⟨0, y0 + (vs.map FVector2D.X).sum + 360 * k, 0⟩ :=
  AMyPawn.LookSeq_ActorRotation E hE vs s y0 hbody

/-- Witness of C4: nine times `Look (10, 0)` from yaw 0; the sum of the inputs is 90. -/
theorem C4_yaw_accumulation_witness :
    uprightEngine.YawLaw ∧ AMyPawn.construct.ActorRotation = ⟨0, 0, 0⟩ ∧
    ((List.replicate 9 (⟨10, 0⟩ : FVector2D)).map FVector2D.X).sum = 90 ∧
    (AMyPawn.LookSeq uprightEngine AMyPawn.construct
        (List.replicate 9 ⟨10, 0⟩)).ActorRotation = ⟨0, 90, 0⟩ ∧
    ∃ k : ℤ, (AMyPawn.LookSeq uprightEngine AMyPawn.construct
        (List.replicate 9 ⟨10, 0⟩)).ActorRotation =
      ⟨0, 0 + ((List.replicate 9 (⟨10, 0⟩ : FVector2D)).map FVector2D.X).sum + 360 * k, 0⟩ :=
  ⟨uprightEngine_YawLaw, rfl, by norm_num [List.replicate],
    by
      simp only [List.replicate, AMyPawn.LookSeq, List.foldl, AMyPawn.Look_ActorRotation,
        AMyPawn.construct, uprightEngine]
      norm_num,
    C4_yaw_accumulation uprightEngine uprightEngine_YawLaw AMyPawn.construct 0 rfl
      (List.replicate 9 ⟨10, 0⟩)⟩

/-- C5, as stated, fails in the arithmetic of the source. In `double`: the pitch
`p = 80 - 2 ^ (-46)` (reached from the constructed pawn by one `Look (0, p)`), the delta
`d = 2 ^ (-48) > 0` and `n = 4` satisfy `n * d ≥ 80 - p`, yet after 4 calls `Look (0, d)`
the pitch is still `p`, not 80: each sum `p + d` rounds back to `p`. The same happens in
`float` with `p = 80 - 2 ^ (-17)` and `d = 2 ^ (-19)`. -/
theorem C5_clamp_idempotence_counterexample :
    (((-80 : ℚ) ≤ 80 - 1 / 2 ^ 46 ∧ (80 : ℚ) - 1 / 2 ^ 46 ≤ 80 ∧ (0 : ℚ) < 1 / 2 ^ 48 ∧
        (80 : ℚ) - (80 - 1 / 2 ^ 46) ≤ ((4 : ℕ) : ℚ) * (1 / 2 ^ 48)) ∧
      (AMyPawn.Look binary64Engine AMyPawn.construct ⟨0, 80 - 1 / 2 ^ 46⟩).rigPitch =
        some (80 - 1 / 2 ^ 46) ∧
      (AMyPawn.LookSeq binary64Engine
          { ActorRotation := ⟨0, 0, 0⟩
            SpringArm := some { RelativeRotation := ⟨80 - 1 / 2 ^ 46, 0, 0⟩,
                                TargetArmLength := 300 } }
          (List.replicate 4 ⟨0, 1 / 2 ^ 48⟩)).rigPitch = some (80 - 1 / 2 ^ 46) ∧
      (AMyPawn.LookSeq binary64Engine
          { ActorRotation := ⟨0, 0, 0⟩
            SpringArm := some { RelativeRotation := ⟨80 - 1 / 2 ^ 46, 0, 0⟩,
                                TargetArmLength := 300 } }
          (List.replicate 4 ⟨0, 1 / 2 ^ 48⟩)).rigPitch ≠ some 80) ∧
    (((-80 : ℚ) ≤ 80 - 1 / 2 ^ 17 ∧ (80 : ℚ) - 1 / 2 ^ 17 ≤ 80 ∧ (0 : ℚ) < 1 / 2 ^ 19 ∧
        (80 : ℚ) - (80 - 1 / 2 ^ 17) ≤ ((4 : ℕ) : ℚ) * (1 / 2 ^ 19)) ∧
      (AMyPawn.LookSeq binary32Engine
          { ActorRotation := ⟨0, 0, 0⟩
            SpringArm := some { RelativeRotation := ⟨80 - 1 / 2 ^ 17, 0, 0⟩,
                                TargetArmLength := 300 } }
          (List.replicate 4 ⟨0, 1 / 2 ^ 19⟩)).rigPitch = some (80 - 1 / 2 ^ 17) ∧
      (AMyPawn.LookSeq binary32Engine
          { ActorRotation := ⟨0, 0, 0⟩
            SpringArm := some { RelativeRotation := ⟨80 - 1 / 2 ^ 17, 0, 0⟩,
                                TargetArmLength := 300 } }
          (List.replicate 4 ⟨0, 1 / 2 ^ 19⟩)).rigPitch ≠ some 80) := by
  have hstep64 : FMath.Clamp (binary64Engine.Round (80 - 1 / 2 ^ 46 + 1 / 2 ^ 48))
      PawnCameraConstants.MaxCameraPitchDown PawnCameraConstants.MaxCameraPitchUp =
      80 - 1 / 2 ^ 46 := by
    rw [binary64_absorbs]
    exact FMath.Clamp_of_mem _ _ _
      (by norm_num [PawnCameraConstants.MaxCameraPitchDown])
      (by norm_num [PawnCameraConstants.MaxCameraPitchUp])
  have hstep32 : FMath.Clamp (binary32Engine.Round (80 - 1 / 2 ^ 17 + 1 / 2 ^ 19))
      PawnCameraConstants.MaxCameraPitchDown PawnCameraConstants.MaxCameraPitchUp =
      80 - 1 / 2 ^ 17 := by
    rw [binary32_absorbs]
    exact FMath.Clamp_of_mem _ _ _
      (by norm_num [PawnCameraConstants.MaxCameraPitchDown])
      (by norm_num [PawnCameraConstants.MaxCameraPitchUp])
  have hreach : binary64Engine.Round (0 + (80 - 1 / 2 ^ 46)) = 80 - 1 / 2 ^ 46 := by
    have h := roundNearestEven_down 52 (x := 0 + (80 - 1 / 2 ^ 46)) 6
      (80 * 2 ^ 46 - 1) (by norm_num) (by norm_num) (by norm_num) (by norm_num)
    show roundNearestEven 53 _ = _
    rw [h]
    norm_num
  have h64 : (AMyPawn.LookSeq binary64Engine
          { ActorRotation := ⟨0, 0, 0⟩
            SpringArm := some { RelativeRotation := ⟨80 - 1 / 2 ^ 46, 0, 0⟩,
                                TargetArmLength := 300 } }
          (List.replicate 4 ⟨0, 1 / 2 ^ 48⟩)).rigPitch = some (80 - 1 / 2 ^ 46) := by
    rw [AMyPawn.LookSeq_rigPitch binary64Engine _ _ _ rfl]
    simp only [List.replicate, List.foldl_cons, List.foldl_nil, hstep64]
  have h32 : (AMyPawn.LookSeq binary32Engine
          { ActorRotation := ⟨0, 0, 0⟩
            SpringArm := some { RelativeRotation := ⟨80 - 1 / 2 ^ 17, 0, 0⟩,
                                TargetArmLength := 300 } }
          (List.replicate 4 ⟨0, 1 / 2 ^ 19⟩)).rigPitch = some (80 - 1 / 2 ^ 17) := by
    rw [AMyPawn.LookSeq_rigPitch binary32Engine _ _ _ rfl]
    simp only [List.replicate, List.foldl_cons, List.foldl_nil, hstep32]
  refine ⟨⟨by norm_num, ?_, h64, ?_⟩, ⟨by norm_num, h32, ?_⟩⟩
  · rw [AMyPawn.Look_rigPitch binary64Engine _ _ ⟨⟨0, 0, 0⟩, 300⟩ rfl]
    simp only [hreach]
    rw [FMath.Clamp_of_mem _ _ _
      (by norm_num [PawnCameraConstants.MaxCameraPitchDown])
      (by norm_num [PawnCameraConstants.MaxCameraPitchUp])]
  · rw [h64]
    intro h
    have := Option.some.inj h
    norm_num at this
  · rw [h32]
    intro h
    have := Option.some.inj h
    norm_num at this

/-- C5, amended. Under the law of the rounding, on a pawn whose spring arm has pitch `p`
in `[-80, 80]`, for every delta `d > 0`, `n` calls `Look (0, d)` with `n * d ≥ 80 - p`
leave the pitch exactly 80 provided the sums `p + d, p + 2 d, ...` that do not exceed 80
are computed without rounding error; and when the pitch is 80, `Look v` with `v.Y ≥ 0`
leaves it 80. -/
theorem C5_clamp_idempotence_exact_sums (E : Engine) (hR : E.RoundLaw) (s : AMyPawn)
    (arm : USpringArmComponent) (hrig : s.SpringArm = some arm) :
    (-80 ≤ arm.RelativeRotation.Pitch → arm.RelativeRotation.Pitch ≤ 80 →
      ∀ (d : ℚ) (n : ℕ), 0 < d → 80 - arm.RelativeRotation.Pitch ≤ n * d →
        (∀ j : ℕ, 1 ≤ j → j ≤ n → arm.RelativeRotation.Pitch + j * d ≤ 80 →
          E.Round (arm.RelativeRotation.Pitch + j * d) =
            arm.RelativeRotation.Pitch + j * d) →
        (AMyPawn.LookSeq E s (List.replicate n ⟨0, d⟩)).rigPitch = some 80) ∧
    (arm.RelativeRotation.Pitch = 80 →
      ∀ v : FVector2D, 0 ≤ v.Y → (AMyPawn.Look E s v).rigPitch = some 80) := by
  constructor
  · intro h1 h2 d n hd hn hex
    rw [AMyPawn.LookSeq_rigPitch E _ s arm hrig,
      clamp_fold_replicate_exact hR _ d h1 hd.le n hex n le_rfl h2,
      min_eq_left (by linarith)]
  · intro hp v hv
    rw [AMyPawn.Look_rigPitch E s v arm hrig,
      FMath.Clamp_of_ge _ _ _ cameraPitch_range
        (by
          simp only [PawnCameraConstants.MaxCameraPitchUp]
          exact hR.round_ge_eighty (by rw [hp]; linarith))]
    rfl

/-- Witness of the amended C5, in `double` arithmetic: from pitch 0, three steps of 30
(the sums 30 and 60 are exact) reach 80; at pitch 80 a further step keeps 80. -/
theorem C5_clamp_idempotence_exact_sums_witness :
    binary64Engine.RoundLaw ∧ AMyPawn.construct.SpringArm = some ⟨⟨0, 0, 0⟩, 300⟩ ∧
    (AMyPawn.LookSeq binary64Engine AMyPawn.construct
      (List.replicate 3 ⟨0, 30⟩)).rigPitch = some 80 ∧
    (AMyPawn.Look binary64Engine
      { ActorRotation := ⟨0, 0, 0⟩
        SpringArm := some { RelativeRotation := ⟨80, 0, 0⟩, TargetArmLength := 300 } }
      ⟨0, 30⟩).rigPitch = some 80 :=
  ⟨binary64Engine_RoundLaw, rfl,
    (C5_clamp_idempotence_exact_sums binary64Engine binary64Engine_RoundLaw
        AMyPawn.construct ⟨⟨0, 0, 0⟩, 300⟩ rfl).1
      (by norm_num) (by norm_num) 30 3 (by norm_num) (by norm_num)
      (by
        intro j _ hj _
        have h := binary64Engine_RoundLaw.round_int (30 * j)
          (by
            have : |(30 * (j : ℤ))| = 30 * (j : ℤ) := abs_of_nonneg (by positivity)
            rw [this]
            omega)
        have hc : ((0 : ℚ) + (j : ℚ) * 30) = (((30 * j : ℤ)) : ℚ) := by
          push_cast
          ring
        show binary64Engine.Round ((0 : ℚ) + (j : ℚ) * 30) = (0 : ℚ) + (j : ℚ) * 30
        rw [hc]
        exact h),
    (C5_clamp_idempotence_exact_sums binary64Engine binary64Engine_RoundLaw
      { ActorRotation := ⟨0, 0, 0⟩
        SpringArm := some { RelativeRotation := ⟨80, 0, 0⟩, TargetArmLength := 300 } }
      ⟨⟨80, 0, 0⟩, 300⟩ rfl).2 rfl ⟨0, 30⟩ (by norm_num)⟩

/-- C6. Move/Look decoupling, under the zero-delta and axes laws of the engine: two
pawns with the same body rotation (so, two pawns that differ only in the rotation of the
spring arm) get the same movement requests from `Move m`; the requests of `Move m` after
`Look (0, d)` are those of `Move m` before it; and the strafe request of `Move (1, 0)`
after `Look (0, d)` has magnitude 1 and a direction perpendicular to the forward vector
of the body, which for a body of zero pitch and roll is the forward vector of its yaw
alone. -/
theorem C6_move_look_decoupling (E : Engine) (hZ : E.ZeroDeltaLaw) (hA : E.AxesLaw) :
    (∀ (s t : AMyPawn) (m : FVector2D), s.ActorRotation = t.ActorRotation →
      (AMyPawn.Move E s m).2 = (AMyPawn.Move E t m).2) ∧
    (∀ (s : AMyPawn) (d : ℚ) (m : FVector2D),
      (AMyPawn.Move E (AMyPawn.Look E s ⟨0, d⟩) m).2 = (AMyPawn.Move E s m).2) ∧
    (∀ (s : AMyPawn) (d : ℚ), ∃ dir : FVector,
      (AMyPawn.Move E (AMyPawn.Look E s ⟨0, d⟩) ⟨1, 0⟩).2 =
        [⟨E.GetForwardVector s.ActorRotation, 0⟩, ⟨dir, 1⟩] ∧
      FVector.Dot dir (E.GetForwardVector s.ActorRotation) = 0 ∧
      ∀ y : ℚ, s.ActorRotation = ⟨0, y, 0⟩ →
        FVector.Dot dir (E.GetForwardVector ⟨0, y, 0⟩) = 0) := by
  have hbody : ∀ (s : AMyPawn) (d : ℚ),
      (AMyPawn.Look E s ⟨0, d⟩).ActorRotation = s.ActorRotation := by
    intro s d
    rw [AMyPawn.Look_ActorRotation]
    exact hZ _
  refine ⟨?_, ?_, ?_⟩
  · intro s t m h
    simp only [AMyPawn.Move, h]
  · intro s d m
    simp only [AMyPawn.Move, hbody]
  · intro s d
    refine ⟨E.GetRightVector s.ActorRotation, ?_, hA _, ?_⟩
    · simp only [AMyPawn.Move, hbody]
    · intro y hy
      rw [← hy]
      exact hA _

/-- Witness of C6: `Look (0, 40)` then `Move (1, 0)` on the constructed pawn (yaw 0): the
requests are those made before the look, the strafe request points along (0, 1, 0), which
is perpendicular to the forward vector (1, 0, 0) of yaw 0; and giving the spring arm
another rotation changes no request. -/
theorem C6_move_look_decoupling_witness :
    uprightEngine.ZeroDeltaLaw ∧ uprightEngine.AxesLaw ∧
    (AMyPawn.Move uprightEngine (AMyPawn.Look uprightEngine AMyPawn.construct ⟨0, 40⟩)
        ⟨1, 0⟩).2 = (AMyPawn.Move uprightEngine AMyPawn.construct ⟨1, 0⟩).2 ∧
    (AMyPawn.Move uprightEngine AMyPawn.construct ⟨1, 0⟩).2 =
      [⟨⟨1, 0, 0⟩, 0⟩, ⟨⟨0, 1, 0⟩, 1⟩] ∧
    (AMyPawn.Move uprightEngine AMyPawn.construct ⟨1, 0⟩).2 =
      (AMyPawn.Move uprightEngine
        { ActorRotation := ⟨0, 0, 0⟩
          SpringArm := some { RelativeRotation := ⟨40, 0, 0⟩, TargetArmLength := 300 } }
        ⟨1, 0⟩).2 ∧
    (∃ dir : FVector,
      (AMyPawn.Move uprightEngine (AMyPawn.Look uprightEngine AMyPawn.construct ⟨0, 40⟩)
          ⟨1, 0⟩).2 =
        [⟨uprightEngine.GetForwardVector AMyPawn.construct.ActorRotation, 0⟩, ⟨dir, 1⟩] ∧
      FVector.Dot dir (uprightEngine.GetForwardVector AMyPawn.construct.ActorRotation) = 0 ∧
      ∀ y : ℚ, AMyPawn.construct.ActorRotation = ⟨0, y, 0⟩ →
        FVector.Dot dir (uprightEngine.GetForwardVector ⟨0, y, 0⟩) = 0) :=
  ⟨uprightEngine_ZeroDeltaLaw, uprightEngine_AxesLaw,
    (C6_move_look_decoupling uprightEngine uprightEngine_ZeroDeltaLaw
      uprightEngine_AxesLaw).2.1 AMyPawn.construct 40 ⟨1, 0⟩,
    by simp [AMyPawn.Move, AMyPawn.construct, uprightEngine],
    (C6_move_look_decoupling uprightEngine uprightEngine_ZeroDeltaLaw
      uprightEngine_AxesLaw).1 AMyPawn.construct _ ⟨1, 0⟩ rfl,
    (C6_move_look_decoupling uprightEngine uprightEngine_ZeroDeltaLaw
      uprightEngine_AxesLaw).2.2 AMyPawn.construct 40⟩

/-- C7. `Move v` makes exactly two movement requests, in this order: (forward vector of
the body, `v.Y`) and (right vector of the body, `v.X`); and the pawn after the call is the
pawn before it: same body rotation, same spring arm (rotation and length). -/
theorem C7_move_requests_and_frame (E : Engine) (s : AMyPawn) (v : FVector2D) :
    (AMyPawn.Move E s v).2 =
      [⟨E.GetForwardVector s.ActorRotation, v.Y⟩, ⟨E.GetRightVector s.ActorRotation, v.X⟩] ∧
    (AMyPawn.Move E s v).2.length = 2 ∧
    (AMyPawn.Move E s v).1 = s ∧
    (AMyPawn.Move E s v).1.ActorRotation = s.ActorRotation ∧
    (AMyPawn.Move E s v).1.SpringArm = s.SpringArm :=
  ⟨rfl, rfl, rfl, rfl, rfl⟩

/-- C8. Zero-input no-op. Under the zero-delta law of the engine, on every controller
state, that is every pawn satisfying the pitch invariant of the data model (no spring arm,
or an arm whose pitch is a scalar value in `[-80, 80]`), `Look (0, 0)` leaves the whole
state as it was: body rotation, rig pitch, the rest of the rig rotation and the arm
length. On every pawn whatsoever, `Move (0, 0)` leaves the state as it was and the
requests it forwards (there are two) all have magnitude 0. -/
theorem C8_zero_input_noop (E : Engine) (s : AMyPawn) :
    (E.ZeroDeltaLaw → s.PitchInvariant E → AMyPawn.Look E s ⟨0, 0⟩ = s) ∧
    (AMyPawn.Move E s ⟨0, 0⟩).1 = s ∧
    (AMyPawn.Move E s ⟨0, 0⟩).2.length = 2 ∧
    ∀ r ∈ (AMyPawn.Move E s ⟨0, 0⟩).2, r.ScaleValue = 0 := by
  refine ⟨?_, rfl, rfl, ?_⟩
  · intro hZ hinv
    obtain ⟨rot, sa⟩ := s
    cases sa with
    | none => simp [AMyPawn.Look, hZ rot]
    | some arm =>
      obtain ⟨h0, h1, h2⟩ := hinv arm rfl
      obtain ⟨⟨p, y, r⟩, len⟩ := arm
      simp only at h0 h1 h2
      have hc : FMath.Clamp (E.Round p) PawnCameraConstants.MaxCameraPitchDown
          PawnCameraConstants.MaxCameraPitchUp = p := by
        rw [h0]
        exact FMath.Clamp_of_mem _ _ _ h1 h2
      simp [AMyPawn.Look, hZ rot, hc]
  · intro r hr
    simp only [AMyPawn.Move, List.mem_cons, List.mem_singleton, List.not_mem_nil,
      or_false] at hr
    rcases hr with rfl | rfl <;> rfl

/-- Witness of C8, in `double` arithmetic: the state reached from the constructed pawn by
`Look (90, 100)` and `Look (0, -30)` satisfies the pitch invariant, and `Look (0, 0)`
leaves it as it is; so does it leave a pawn without a spring arm; and `Move (0, 0)` on a
pawn whose arm pitch is 100 keeps the state and forwards only zero magnitudes. -/
theorem C8_zero_input_noop_witness :
    binary64Engine.ZeroDeltaLaw ∧
    (AMyPawn.LookSeq binary64Engine AMyPawn.construct
      [⟨90, 100⟩, ⟨0, -30⟩]).PitchInvariant binary64Engine ∧
    AMyPawn.Look binary64Engine
        (AMyPawn.LookSeq binary64Engine AMyPawn.construct [⟨90, 100⟩, ⟨0, -30⟩]) ⟨0, 0⟩ =
      AMyPawn.LookSeq binary64Engine AMyPawn.construct [⟨90, 100⟩, ⟨0, -30⟩] ∧
    AMyPawn.Look binary64Engine { ActorRotation := ⟨0, 45, 0⟩, SpringArm := none } ⟨0, 0⟩ =
      { ActorRotation := ⟨0, 45, 0⟩, SpringArm := none } ∧
    (AMyPawn.Move binary64Engine
        { ActorRotation := ⟨0, 90, 0⟩
          SpringArm := some { RelativeRotation := ⟨100, 0, 0⟩, TargetArmLength := 300 } }
        ⟨0, 0⟩).1 =
      { ActorRotation := ⟨0, 90, 0⟩
        SpringArm := some { RelativeRotation := ⟨100, 0, 0⟩, TargetArmLength := 300 } } ∧
    ∀ r ∈ (AMyPawn.Move binary64Engine
        { ActorRotation := ⟨0, 90, 0⟩
          SpringArm := some { RelativeRotation := ⟨100, 0, 0⟩, TargetArmLength := 300 } }
        ⟨0, 0⟩).2, r.ScaleValue = 0 :=
  ⟨binary64Engine_ZeroDeltaLaw,
    AMyPawn.LookSeq_construct_PitchInvariant binary64Engine_RoundLaw _,
    (C8_zero_input_noop binary64Engine _).1 binary64Engine_ZeroDeltaLaw
      (AMyPawn.LookSeq_construct_PitchInvariant binary64Engine_RoundLaw _),
    (C8_zero_input_noop binary64Engine _).1 binary64Engine_ZeroDeltaLaw
      (fun _ h => Option.noConfusion h),
    (C8_zero_input_noop binary64Engine _).2.1,
    (C8_zero_input_noop binary64Engine _).2.2.2⟩

/-- C9. A missing spring arm is not an error: on a pawn whose `SpringArm` is null, `Look v`
(a total function: it always returns) gives the same pawn with the body rotated locally
by (pitch 0, yaw `v.X`, roll 0) and still no spring arm, so no arm rotation is written;
under the yaw law a body of yaw `y0` and zero pitch and roll ends at yaw
`y0 + v.X` up to whole turns; and `Move m` makes the same two requests as on the same pawn
with a spring arm attached. -/
theorem C9_missing_rig (E : Engine) (s : AMyPawn) (hnull : s.SpringArm = none)
    (v : FVector2D) :
    AMyPawn.Look E s v =
      { ActorRotation := E.AddLocalRotation s.ActorRotation ⟨0, v.X, 0⟩, SpringArm := none } ∧
    (E.YawLaw → ∀ y0 : ℚ, s.ActorRotation = ⟨0, y0, 0⟩ →
      ∃ k : ℤ, (AMyPawn.Look E s v).ActorRotation = ⟨0, y0 + v.X + 360 * k, 0⟩) ∧
    (∀ (arm : USpringArmComponent) (m : FVector2D),
      (AMyPawn.Move E s m).2 = (AMyPawn.Move E { s with SpringArm := some arm } m).2 ∧
      (AMyPawn.Move E s m).2 =
        [⟨E.GetForwardVector s.ActorRotation, m.Y⟩,
         ⟨E.GetRightVector s.ActorRotation, m.X⟩]) := by
  refine ⟨?_, ?_, fun arm m => ⟨rfl, rfl⟩⟩
  · obtain ⟨rot, sa⟩ := s
    simp only at hnull
    subst hnull
    rfl
  · intro hE y0 hy
    obtain ⟨k, hk⟩ := hE y0 v.X
    exact ⟨k, by rw [AMyPawn.Look_ActorRotation, hy, hk]⟩

/-- Witness of C9: a pawn of yaw 0 without a spring arm, looked by (10, 25): the body
ends at yaw 10 and the arm is still null. -/
theorem C9_missing_rig_witness :
    ({ ActorRotation := ⟨0, 0, 0⟩, SpringArm := none } : AMyPawn).SpringArm = none ∧
    uprightEngine.YawLaw ∧
    AMyPawn.Look uprightEngine { ActorRotation := ⟨0, 0, 0⟩, SpringArm := none } ⟨10, 25⟩ =
      { ActorRotation := uprightEngine.AddLocalRotation ⟨0, 0, 0⟩ ⟨0, 10, 0⟩,
        SpringArm := none } ∧
    uprightEngine.AddLocalRotation ⟨0, 0, 0⟩ ⟨0, 10, 0⟩ = ⟨0, 10, 0⟩ ∧
    ∃ k : ℤ, (AMyPawn.Look uprightEngine { ActorRotation := ⟨0, 0, 0⟩, SpringArm := none }
      ⟨10, 25⟩).ActorRotation = ⟨0, 0 + 10 + 360 * k, 0⟩ :=
  ⟨rfl, uprightEngine_YawLaw,
    (C9_missing_rig uprightEngine { ActorRotation := ⟨0, 0, 0⟩, SpringArm := none } rfl
      ⟨10, 25⟩).1,
    by simp [uprightEngine],
    (C9_missing_rig uprightEngine { ActorRotation := ⟨0, 0, 0⟩, SpringArm := none } rfl
      ⟨10, 25⟩).2.1 uprightEngine_YawLaw 0 rfl⟩

/-- C10, as stated, fails in the arithmetic of the source. In `double`: with pitch
`p = 1` and `a = b = 3 * 2 ^ (-55)`, both `p` and `p + a` lie in `[-80, 80]`, yet
`Look (0, a)` followed by `Look (0, b)` gives pitch 1 (each sum rounds back to 1) while the
single `Look (0, a + b)` gives `1 + 2 ^ (-52)`. The same happens in `float` with
`a = b = 3 * 2 ^ (-26)`. -/
theorem C10_overshoot_discarded_counterexample :
    (((-80 : ℚ) ≤ 1 ∧ (1 : ℚ) ≤ 80 ∧ (-80 : ℚ) ≤ 1 + 3 / 2 ^ 55 ∧
        (1 : ℚ) + 3 / 2 ^ 55 ≤ 80) ∧
      (AMyPawn.Look binary64Engine (AMyPawn.Look binary64Engine
          { ActorRotation := ⟨0, 0, 0⟩
            SpringArm := some { RelativeRotation := ⟨1, 0, 0⟩, TargetArmLength := 300 } }
          ⟨0, 3 / 2 ^ 55⟩) ⟨0, 3 / 2 ^ 55⟩).rigPitch = some 1 ∧
      (AMyPawn.Look binary64Engine
          { ActorRotation := ⟨0, 0, 0⟩
            SpringArm := some { RelativeRotation := ⟨1, 0, 0⟩, TargetArmLength := 300 } }
          ⟨0, 3 / 2 ^ 55 + 3 / 2 ^ 55⟩).rigPitch = some (1 + 1 / 2 ^ 52) ∧
      (1 : ℚ) ≠ 1 + 1 / 2 ^ 52) ∧
    (((-80 : ℚ) ≤ 1 + 3 / 2 ^ 26 ∧ (1 : ℚ) + 3 / 2 ^ 26 ≤ 80) ∧
      (AMyPawn.Look binary32Engine (AMyPawn.Look binary32Engine
          { ActorRotation := ⟨0, 0, 0⟩
            SpringArm := some { RelativeRotation := ⟨1, 0, 0⟩, TargetArmLength := 300 } }
          ⟨0, 3 / 2 ^ 26⟩) ⟨0, 3 / 2 ^ 26⟩).rigPitch = some 1 ∧
      (AMyPawn.Look binary32Engine
          { ActorRotation := ⟨0, 0, 0⟩
            SpringArm := some { RelativeRotation := ⟨1, 0, 0⟩, TargetArmLength := 300 } }
          ⟨0, 3 / 2 ^ 26 + 3 / 2 ^ 26⟩).rigPitch = some (1 + 1 / 2 ^ 23) ∧
      (1 : ℚ) ≠ 1 + 1 / 2 ^ 23) := by
  have hc1 : FMath.Clamp (1 : ℚ) PawnCameraConstants.MaxCameraPitchDown
      PawnCameraConstants.MaxCameraPitchUp = 1 :=
    FMath.Clamp_of_mem _ _ _ (by norm_num [PawnCameraConstants.MaxCameraPitchDown])
      (by norm_num [PawnCameraConstants.MaxCameraPitchUp])
  have hc64 : FMath.Clamp ((1 : ℚ) + 1 / 2 ^ 52) PawnCameraConstants.MaxCameraPitchDown
      PawnCameraConstants.MaxCameraPitchUp = 1 + 1 / 2 ^ 52 :=
    FMath.Clamp_of_mem _ _ _ (by norm_num [PawnCameraConstants.MaxCameraPitchDown])
      (by norm_num [PawnCameraConstants.MaxCameraPitchUp])
  have hc32 : FMath.Clamp ((1 : ℚ) + 1 / 2 ^ 23) PawnCameraConstants.MaxCameraPitchDown
      PawnCameraConstants.MaxCameraPitchUp = 1 + 1 / 2 ^ 23 :=
    FMath.Clamp_of_mem _ _ _ (by norm_num [PawnCameraConstants.MaxCameraPitchDown])
      (by norm_num [PawnCameraConstants.MaxCameraPitchUp])
  refine ⟨⟨by norm_num, ?_, ?_, by norm_num⟩, ⟨by norm_num, ?_, ?_, by norm_num⟩⟩
  · rw [AMyPawn.Look_rigPitch binary64Engine _ _ _
      (AMyPawn.Look_SpringArm_some binary64Engine _ _ ⟨⟨1, 0, 0⟩, 300⟩ rfl)]
    simp only [binary64_one_plus.1, hc1]
  · rw [AMyPawn.Look_rigPitch binary64Engine _ _ ⟨⟨1, 0, 0⟩, 300⟩ rfl]
    simp only [binary64_one_plus.2, hc64]
  · rw [AMyPawn.Look_rigPitch binary32Engine _ _ _
      (AMyPawn.Look_SpringArm_some binary32Engine _ _ ⟨⟨1, 0, 0⟩, 300⟩ rfl)]
    simp only [binary32_one_plus.1, hc1]
  · rw [AMyPawn.Look_rigPitch binary32Engine _ _ ⟨⟨1, 0, 0⟩, 300⟩ rfl]
    simp only [binary32_one_plus.2, hc32]

/-- C10, amended. Clamped overshoot is discarded, not remembered: on a pawn whose spring
arm has pitch `p`, when `p + a` lies in `[-80, 80]` and is computed without rounding error,
`Look (0, a)` followed by `Look (0, b)` gives the same arm pitch as the single
`Look (0, a + b)` (no bound on `p` itself is needed); and, under the law of the rounding,
from `p = 0` with `a = 100`, `b = -100`, where `p + a` is out of range, the two calls give
pitch -20 and the single call gives pitch 0. -/
theorem C10_overshoot_discarded_exact_sum (E : Engine) (s : AMyPawn)
    (arm : USpringArmComponent) (hrig : s.SpringArm = some arm) :
    (∀ a b : ℚ, -80 ≤ arm.RelativeRotation.Pitch + a → arm.RelativeRotation.Pitch + a ≤ 80 →
      E.Round (arm.RelativeRotation.Pitch + a) = arm.RelativeRotation.Pitch + a →
      (AMyPawn.Look E (AMyPawn.Look E s ⟨0, a⟩) ⟨0, b⟩).rigPitch =
        (AMyPawn.Look E s ⟨0, a + b⟩).rigPitch) ∧
    (E.RoundLaw → arm.RelativeRotation.Pitch = 0 →
      (AMyPawn.Look E (AMyPawn.Look E s ⟨0, 100⟩) ⟨0, -100⟩).rigPitch = some (-20) ∧
      (AMyPawn.Look E s ⟨0, 100 + -100⟩).rigPitch = some 0) := by
  constructor
  · intro a b h1 h2 hex
    rw [AMyPawn.Look_rigPitch E _ ⟨0, b⟩ _ (AMyPawn.Look_SpringArm_some E s ⟨0, a⟩ arm hrig),
      AMyPawn.Look_rigPitch E s ⟨0, a + b⟩ arm hrig]
    simp only
    rw [hex, FMath.Clamp_of_mem (arm.RelativeRotation.Pitch + a)
      PawnCameraConstants.MaxCameraPitchDown PawnCameraConstants.MaxCameraPitchUp h1 h2,
      add_assoc]
  · intro hR hp
    have h100 : (80 : ℚ) ≤ E.Round (0 + 100) := hR.round_ge_eighty (by norm_num)
    have hm20 : E.Round (80 + -100) = -20 := by
      have h := hR.round_int (-20) (by norm_num)
      have hc : ((80 : ℚ) + -100) = (((-20 : ℤ)) : ℚ) := by norm_num
      rw [hc, h]
      norm_num
    have h0 : E.Round (0 + (100 + -100)) = 0 := by
      have h := hR.round_int 0 (by norm_num)
      have hc : ((0 : ℚ) + (100 + -100)) = (((0 : ℤ)) : ℚ) := by norm_num
      rw [hc, h]
      norm_num
    rw [AMyPawn.Look_rigPitch E _ ⟨0, -100⟩ _
        (AMyPawn.Look_SpringArm_some E s ⟨0, 100⟩ arm hrig),
      AMyPawn.Look_rigPitch E s ⟨0, 100 + -100⟩ arm hrig, hp]
    simp only [PawnCameraConstants.MaxCameraPitchDown, PawnCameraConstants.MaxCameraPitchUp]
    rw [FMath.Clamp_of_ge _ _ _ (by norm_num) h100, hm20, h0,
      FMath.Clamp_of_mem _ _ _ (by norm_num) (by norm_num),
      FMath.Clamp_of_mem _ _ _ (by norm_num) (by norm_num)]
    exact ⟨by norm_num, rfl⟩

/-- Witness of the amended C10 on the constructed pawn (rig pitch 0), in `double`
arithmetic: steps 30 then 20 against the single step 50 (the sum 0 + 30 is exact), and
the overshoot case 100 then -100. -/
theorem C10_overshoot_discarded_exact_sum_witness :
    AMyPawn.construct.SpringArm = some ⟨⟨0, 0, 0⟩, 300⟩ ∧ binary64Engine.RoundLaw ∧
    binary64Engine.Round (0 + 30) = 0 + 30 ∧
    (AMyPawn.Look binary64Engine (AMyPawn.Look binary64Engine AMyPawn.construct ⟨0, 30⟩)
        ⟨0, 20⟩).rigPitch =
      (AMyPawn.Look binary64Engine AMyPawn.construct ⟨0, 30 + 20⟩).rigPitch ∧
    (AMyPawn.Look binary64Engine (AMyPawn.Look binary64Engine AMyPawn.construct ⟨0, 100⟩)
        ⟨0, -100⟩).rigPitch = some (-20) ∧
    (AMyPawn.Look binary64Engine AMyPawn.construct ⟨0, 100 + -100⟩).rigPitch = some 0 :=
  have h30 : binary64Engine.Round (0 + 30) = 0 + 30 := by
    have h := binary64Engine_RoundLaw.round_int 30 (by norm_num)
    have hc : ((0 : ℚ) + 30) = (((30 : ℤ)) : ℚ) := by norm_num
    rw [hc, h]
  ⟨rfl, binary64Engine_RoundLaw, h30,
    (C10_overshoot_discarded_exact_sum binary64Engine AMyPawn.construct
      ⟨⟨0, 0, 0⟩, 300⟩ rfl).1 30 20 (by norm_num) (by norm_num) h30,
    (C10_overshoot_discarded_exact_sum binary64Engine AMyPawn.construct
      ⟨⟨0, 0, 0⟩, 300⟩ rfl).2 binary64Engine_RoundLaw rfl⟩

end HW07
